import Mathlib

/-!
# rand48: the 48-bit linear congruential generator of `rand48.c`

A shallow embedding of `src/rand48.c`, and of the 32-bit generator of `src/rand.c`.

* An `unsigned short` cell is a `Nat`; a cell that really holds a C
  `unsigned short` satisfies `< 2 ^ 16` (`Words.wf`).
* `unsigned long long` arithmetic is arithmetic on `Nat` reduced `% 2 ^ 64`
  after every operation that can leave the 64-bit range (`u64`).
* `long` values are `Int`.  The `int r` of `mrand48`/`jrand48` is a 32-bit
  two's-complement integer (`int32`).
* The file-scope objects `r48state`, `r48multiplicand`, `r48addend` and the
  function-scope static `old_seed` of `seed48` are the fields of `Engine`,
  threaded explicitly through every operation.
* A caller buffer is a value of its own, apart from the engine: the external
  generators take it and give it back next to the engine.  The one pointer into
  the engine that a caller can hold, the one `seed48` returns, is the case
  `ExtBuffer.returned` of a call.
* In `rand.c` the width of `long` is a parameter `w`, and `long` arithmetic wraps
  to `w` bits in two's complement (`wrapLong`).
-/

namespace Rand48

/-! ## Data model -/

/-- An array `unsigned short x[3]`. -/
structure Words where
  w0 : Nat
  w1 : Nat
  w2 : Nat
deriving DecidableEq, Repr

/-- Every cell of the array holds a 16-bit value, as an `unsigned short` does. -/
def Words.wf (s : Words) : Prop :=
  s.w0 < 2 ^ 16 ∧ s.w1 < 2 ^ 16 ∧ s.w2 < 2 ^ 16

instance (s : Words) : Decidable s.wf := by
  unfold Words.wf; infer_instance

/-- The conceptual 48-bit value `s0 + s1 * 2^16 + s2 * 2^32` of a 3-word buffer. -/
def Words.value (s : Words) : Nat :=
  s.w0 + s.w1 * 2 ^ 16 + s.w2 * 2 ^ 32

/-- `#define R48_MULTIPLICAND 0x5deece66dULL` -/
def R48_MULTIPLICAND : Nat := 0x5deece66d

/-- `#define R48_ADDEND 11` -/
def R48_ADDEND : Nat := 11

/-- `#define R48_INITIAL_VAL 0x1234abcd330eULL` -/
def R48_INITIAL_VAL : Nat := 0x1234abcd330e

/-- `#define R48_MASK 0xffffffffffffULL` -/
def R48_MASK : Nat := 0xffffffffffff

/-- The mutable objects of `rand48.c` with static storage duration. -/
structure Engine where
  r48state : Words
  r48multiplicand : Words
  r48addend : Nat
  old_seed : Words
deriving DecidableEq, Repr

/-- Reduction of a mathematical value to `unsigned long long`. -/
def u64 (n : Nat) : Nat := n % 2 ^ 64

/-- Conversion of an integer value to `unsigned short` (reduction modulo `2^16`). -/
def ushort (x : Int) : Nat := (x % 2 ^ 16).toNat

/-- The value of a 32-bit two's-complement `int` holding the bit pattern `p`: the
`r << 16` of `mrand48`/`jrand48` keeps the low 32 bits of the shifted pattern. -/
def int32 (p : Nat) : Int :=
  if p % 2 ^ 32 < 2 ^ 31 then ((p % 2 ^ 32 : Nat) : Int)
  else ((p % 2 ^ 32 : Nat) : Int) - 2 ^ 32

/-! ## Operations -/

/-- `r48_getll`: the three cells assembled into one (non-negative) `long long`. -/
def r48_getll (s : Words) : Nat :=
  s.w0 ||| (s.w1 <<< 16) ||| (s.w2 <<< 32)

/-- A buffer whose three cells are 16-bit and whose assembled value
`s0 | s1 << 16 | s2 << 32` is a 48-bit number. -/
def Words.bounded (s : Words) : Prop :=
  s.w0 < 2 ^ 16 ∧ s.w1 < 2 ^ 16 ∧ s.w2 < 2 ^ 16 ∧ r48_getll s < 2 ^ 48

/-- `r48_iterate`: one step of the generator on the buffer `state`, reading the
globals `r48multiplicand` and `r48addend`. -/
def r48_iterate (r48multiplicand : Words) (r48addend : Nat) (state : Words) : Words :=
  let lo := state.w0 ||| (state.w1 <<< 16)
  let hi := state.w2
  let multiplicand := r48_getll r48multiplicand
  let result :=
    u64 (u64 ((u64 (lo * multiplicand) &&& R48_MASK) +
          (u64 (u64 (hi * (multiplicand &&& 0xffff)) <<< 32) &&& R48_MASK)) +
        r48addend) &&& R48_MASK
  { w0 := result &&& 0xffff
    w1 := (result >>> 16) &&& 0xffff
    w2 := (result >>> 32) &&& 0xffff }

/-- The local variable `result` of `r48_iterate`: the 48-bit number that is split
into the three cells. -/
def iterResult (r48multiplicand : Words) (r48addend : Nat) (state : Words) : Nat :=
  let lo := state.w0 ||| (state.w1 <<< 16)
  let hi := state.w2
  let multiplicand := r48_getll r48multiplicand
  u64 (u64 ((u64 (lo * multiplicand) &&& R48_MASK) +
        (u64 (u64 (hi * (multiplicand &&& 0xffff)) <<< 32) &&& R48_MASK)) +
      r48addend) &&& R48_MASK

/-- `lrand48`: iterate the internal buffer, return `(s2 << 15) | (s1 >> 1)`. -/
def lrand48 (e : Engine) : Int × Engine :=
  let st := r48_iterate e.r48multiplicand e.r48addend e.r48state
  let r := st.w2
  let r := (r <<< 15) ||| (st.w1 >>> 1)
  ((r : Int), { e with r48state := st })

/-- `nrand48`: as `lrand48`, on the caller's buffer `xsubi`; the result is the
returned value, the caller's buffer after the call and the engine after the call. -/
def nrand48 (e : Engine) (xsubi : Words) : Int × Words × Engine :=
  let xsubi := r48_iterate e.r48multiplicand e.r48addend xsubi
  let r := xsubi.w2
  let r := (r <<< 15) ||| (xsubi.w1 >>> 1)
  ((r : Int), xsubi, e)

/-- `mrand48`: iterate the internal buffer, return the `int` `(s2 << 16) | s1`
widened to `long`. -/
def mrand48 (e : Engine) : Int × Engine :=
  let st := r48_iterate e.r48multiplicand e.r48addend e.r48state
  let r := st.w2
  let r := int32 ((r <<< 16) ||| st.w1)
  (r, { e with r48state := st })

/-- `jrand48`: as `mrand48`, on the caller's buffer `xsubi`. -/
def jrand48 (e : Engine) (xsubi : Words) : Int × Words × Engine :=
  let xsubi := r48_iterate e.r48multiplicand e.r48addend xsubi
  let r := xsubi.w2
  let r := int32 ((r <<< 16) ||| xsubi.w1)
  (r, xsubi, e)

/-- `drand48`: iterate the internal buffer, return `r48_getll(r48state) * 0x1.0p-48`.
The `double` is represented by the rational it denotes: the integer is below
`2^48`, so its conversion to `double` and the product with a power of two are exact. -/
def drand48 (e : Engine) : ℚ × Engine :=
  let st := r48_iterate e.r48multiplicand e.r48addend e.r48state
  ((r48_getll st : ℚ) * (1 / 2 ^ 48), { e with r48state := st })

/-- `erand48`: as `drand48`, on the caller's buffer `xsubi`. -/
def erand48 (e : Engine) (xsubi : Words) : ℚ × Words × Engine :=
  let xsubi := r48_iterate e.r48multiplicand e.r48addend xsubi
  ((r48_getll xsubi : ℚ) * (1 / 2 ^ 48), xsubi, e)

/-- `lcong48`: install seed `param[0..2]`, multiplicand `param[3..5]` and addend
`param[6]`. -/
def lcong48 (e : Engine) (param : Fin 7 → Nat) : Engine :=
  { e with
    r48state := ⟨param 0, param 1, param 2⟩
    r48multiplicand := ⟨param 3, param 4, param 5⟩
    r48addend := param 6 }

/-- `seed48`: save the state in the static `old_seed`, install `seed16v`, reset
multiplicand and addend.  The C function returns the address of `old_seed`; what
the caller reads through it is the field `old_seed` of the engine. -/
def seed48 (e : Engine) (seed16v : Words) : Engine :=
  { old_seed := ⟨e.r48state.w0, e.r48state.w1, e.r48state.w2⟩
    r48state := ⟨seed16v.w0, seed16v.w1, seed16v.w2⟩
    r48multiplicand :=
      ⟨R48_MULTIPLICAND &&& 0xffff, (R48_MULTIPLICAND >>> 16) &&& 0xffff,
        (R48_MULTIPLICAND >>> 32) &&& 0xffff⟩
    r48addend := R48_ADDEND }

/-- `srand48`: word 0 is the constant, words 1 and 2 are `seedval & 0xffff` and
`(seedval >> 16) & 0xffff`.  `seedval` is a signed `long`; `>>` on it is the
arithmetic shift and `&` acts on the two's-complement pattern. -/
def srand48 (e : Engine) (seedval : Int) : Engine :=
  { e with
    r48state :=
      ⟨R48_INITIAL_VAL &&& 0xffff,
        ushort (Int.land seedval 0xffff),
        ushort (Int.land (seedval >>> (16 : Nat)) 0xffff)⟩ }

/-! ## Sequences of internal generator calls -/

/-- The two engines agree on what the generators read and write: state, multiplier
and addend (the return buffer `old_seed` of `seed48` is left out). -/
def Engine.sameGen (e1 e2 : Engine) : Prop :=
  e1.r48state = e2.r48state ∧ e1.r48multiplicand = e2.r48multiplicand ∧
    e1.r48addend = e2.r48addend

/-- The three generators that work on the internal buffer. -/
inductive GenCall where
  | lrand
  | mrand
  | drand
deriving DecidableEq, Repr

/-- What a generator call returns: a `long` or a `double`. -/
inductive GenOut where
  | long (v : Int)
  | double (v : ℚ)
deriving DecidableEq

/-- One internal generator call. -/
def GenCall.run (c : GenCall) (e : Engine) : GenOut × Engine :=
  match c with
  | .lrand => ((lrand48 e).1 |> GenOut.long, (lrand48 e).2)
  | .mrand => ((mrand48 e).1 |> GenOut.long, (mrand48 e).2)
  | .drand => ((drand48 e).1 |> GenOut.double, (drand48 e).2)

/-- A finite sequence of internal generator calls, left to right: the outputs in
order and the engine after the last call. -/
def runCalls : List GenCall → Engine → List GenOut × Engine
  | [], e => ([], e)
  | c :: cs, e =>
    let r := c.run e
    let rest := runCalls cs r.2
    (r.1 :: rest.1, rest.2)

/-! ## External generator calls interleaved with internal ones -/

/-- The three generators that work on a caller buffer. -/
inductive ExtCall where
  | nrand
  | jrand
  | erand
deriving DecidableEq, Repr

/-- One external generator call on the buffer `xsubi`: the value returned, the
buffer after the call and the engine after the call. -/
def ExtCall.run (c : ExtCall) (e : Engine) (xsubi : Words) : GenOut × Words × Engine :=
  match c with
  | .nrand => ((nrand48 e xsubi).1 |> GenOut.long, (nrand48 e xsubi).2.1, (nrand48 e xsubi).2.2)
  | .jrand => ((jrand48 e xsubi).1 |> GenOut.long, (jrand48 e xsubi).2.1, (jrand48 e xsubi).2.2)
  | .erand => ((erand48 e xsubi).1 |> GenOut.double, (erand48 e xsubi).2.1, (erand48 e xsubi).2.2)

/-- A step of a caller: an internal generator call, or an external one on the
caller's buffer number `i`. -/
inductive Step where
  | internal (c : GenCall)
  | external (c : ExtCall) (i : Nat)
deriving DecidableEq, Repr

/-- The internal generator calls of a sequence of steps, in order. -/
def internalCalls : List Step → List GenCall
  | [] => []
  | .internal c :: ss => c :: internalCalls ss
  | .external _ _ :: ss => internalCalls ss

/-- A sequence of steps, left to right, on the engine and the caller's buffers
`bufs`: the values returned by the internal calls in order, the engine and the
buffers after the last step. -/
def runSteps : List Step → Engine → (Nat → Words) → List GenOut × Engine × (Nat → Words)
  | [], e, bufs => ([], e, bufs)
  | .internal c :: ss, e, bufs =>
    let r := c.run e
    let rest := runSteps ss r.2 bufs
    (r.1 :: rest.1, rest.2)
  | .external c i :: ss, e, bufs =>
    let r := c.run e (bufs i)
    runSteps ss r.2.2 (Function.update bufs i r.2.1)

/-! ## Operations other than `seed48` -/

/-- The buffer an external generator call is handed: a buffer of the caller's own,
or the static `old_seed` itself, through the pointer that `seed48` returned. -/
inductive ExtBuffer where
  | own (xsubi : Words)
  | returned
deriving DecidableEq, Repr

/-- A call of any public operation except `seed48`; an external generator call
carries the buffer it is handed. -/
inductive Mutation where
  | gen (c : GenCall)
  | ext (c : ExtCall) (b : ExtBuffer)
  | lcong (param : Fin 7 → Nat)
  | srand (seedval : Int)

/-- The engine after one such call.  An external generator call on the returned
pointer iterates the static `old_seed` in place. -/
def Mutation.apply (o : Mutation) (e : Engine) : Engine :=
  match o with
  | .gen c => (c.run e).2
  | .ext c (.own xsubi) => (c.run e xsubi).2.2
  | .ext c .returned =>
    { (c.run e e.old_seed).2.2 with old_seed := (c.run e e.old_seed).2.1 }
  | .lcong param => lcong48 e param
  | .srand seedval => srand48 e seedval

/-- The engine at process start: the initialisers of `r48state`, `r48multiplicand`
and `r48addend`; the static `old_seed` has no initialiser and starts as zeros. -/
def initial : Engine :=
  { r48state :=
      ⟨R48_INITIAL_VAL &&& 0xffff, (R48_INITIAL_VAL >>> 16) &&& 0xffff,
        (R48_INITIAL_VAL >>> 32) &&& 0xffff⟩
    r48multiplicand :=
      ⟨R48_MULTIPLICAND &&& 0xffff, (R48_MULTIPLICAND >>> 16) &&& 0xffff,
        (R48_MULTIPLICAND >>> 32) &&& 0xffff⟩
    r48addend := R48_ADDEND
    old_seed := ⟨0, 0, 0⟩ }

/-! ## Intermediate values of `r48_iterate` over unbounded integers -/

/-- The product `lo * multiplicand` of `r48_iterate`, not reduced. -/
def iterProduct (r48multiplicand state : Words) : Nat :=
  let lo := state.w0 ||| (state.w1 <<< 16)
  let multiplicand := r48_getll r48multiplicand
  lo * multiplicand

/-- The shifted cross term `(hi * (multiplicand & 0xffff)) << 32` of `r48_iterate`,
not reduced. -/
def iterCross (r48multiplicand state : Words) : Nat :=
  let hi := state.w2
  let multiplicand := r48_getll r48multiplicand
  (hi * (multiplicand &&& 0xffff)) <<< 32

/-- The three-term sum of `r48_iterate` before the final mask, not reduced. -/
def iterSum (r48multiplicand : Words) (r48addend : Nat) (state : Words) : Nat :=
  (iterProduct r48multiplicand state &&& R48_MASK) +
    (iterCross r48multiplicand state &&& R48_MASK) + r48addend

/-! ## `rand.c`: the 32-bit generator -/

/-- Reduction of a mathematical value to a two's-complement `long` of `w` bits. -/
def wrapLong (w : Nat) (x : Int) : Int :=
  (x + 2 ^ (w - 1)) % 2 ^ w - 2 ^ (w - 1)

/-- `static long rstate = 0;` -/
def rstate_initial : Int := 0

/-- `srand`: `rstate = (long)seed`, for a `long` of `w` bits. -/
def srand (w : Nat) (seed : Nat) : Int :=
  wrapLong w (seed : Int)

/-- `rand`, for a `long` of `w` bits with wrapping arithmetic: the value returned
and the new `rstate`. -/
def rand (w : Nat) (rstate : Int) : Int × Int :=
  let rstate := wrapLong w (wrapLong w (rstate * 214013) + 2531011)
  (Int.land (rstate >>> (16 : Nat)) 0x7fff, rstate)

/-- The values returned by `n` successive calls of `rand`, starting from `rstate`. -/
def randCalls (w : Nat) : Nat → Int → List Int
  | 0, _ => []
  | n + 1, rstate => (rand w rstate).1 :: randCalls w n (rand w rstate).2

/-! ## Arithmetic reading of the bit operations -/

theorem and_mask48 (x : Nat) : x &&& R48_MASK = x % 2 ^ 48 :=
  Nat.and_pow_two_sub_one_eq_mod x 48

theorem and_mask16 (x : Nat) : x &&& 0xffff = x % 2 ^ 16 :=
  Nat.and_pow_two_sub_one_eq_mod x 16

theorem or_shift16 (a b : Nat) (ha : a < 2 ^ 16) : a ||| (b <<< 16) = a + b * 2 ^ 16 := by
  rw [Nat.shiftLeft_eq, Nat.lor_comm, Nat.mul_comm b, ← Nat.mul_add_lt_is_or ha b]
  omega

theorem or_shift32 (a b : Nat) (ha : a < 2 ^ 32) : a ||| (b <<< 32) = a + b * 2 ^ 32 := by
  rw [Nat.shiftLeft_eq, Nat.lor_comm, Nat.mul_comm b, ← Nat.mul_add_lt_is_or ha b]
  omega

theorem r48_getll_eq_value (s : Words) (h : s.wf) : r48_getll s = s.value := by
  obtain ⟨h0, h1, _⟩ := h
  unfold r48_getll Words.value
  rw [or_shift16 _ _ h0, or_shift32 _ _ (by omega)]

theorem value_lt (s : Words) (h : s.wf) : s.value < 2 ^ 48 := by
  obtain ⟨h0, h1, h2⟩ := h
  unfold Words.value
  omega

theorem r48_iterate_eq (m : Words) (c : Nat) (s : Words) :
    r48_iterate m c s =
      ⟨iterResult m c s % 2 ^ 16, iterResult m c s / 2 ^ 16 % 2 ^ 16,
        iterResult m c s / 2 ^ 32 % 2 ^ 16⟩ := by
  simp only [r48_iterate, iterResult, and_mask16, Nat.shiftRight_eq_div_pow]

theorem iterResult_lt (m : Words) (c : Nat) (s : Words) : iterResult m c s < 2 ^ 48 := by
  unfold iterResult
  simp only [and_mask48]
  exact Nat.mod_lt _ (by norm_num)

theorem r48_iterate_wf (m : Words) (c : Nat) (s : Words) : (r48_iterate m c s).wf := by
  rw [r48_iterate_eq]
  refine ⟨?_, ?_, ?_⟩ <;> exact Nat.mod_lt _ (by norm_num)

theorem r48_iterate_value (m : Words) (c : Nat) (s : Words) :
    (r48_iterate m c s).value = iterResult m c s := by
  have h := iterResult_lt m c s
  rw [r48_iterate_eq]
  unfold Words.value
  simp only
  omega

theorem mod64_mod48 (x : Nat) : x % 2 ^ 64 % 2 ^ 48 = x % 2 ^ 48 :=
  Nat.mod_mod_of_dvd x (by norm_num)

theorem iterResult_eq (m : Words) (c : Nat) (s : Words) (hs : s.wf) (hm : m.wf) :
    iterResult m c s = (s.value * m.value + c) % 2 ^ 48 := by
  obtain ⟨h0, h1, h2⟩ := hs
  unfold iterResult
  rw [or_shift16 _ _ h0]
  simp only [and_mask48, and_mask16, u64, Nat.shiftLeft_eq, r48_getll_eq_value m hm]
  have hsplit : s.value * m.value =
      (s.w0 + s.w1 * 2 ^ 16) * m.value + 2 ^ 32 * (s.w2 * (m.value % 2 ^ 16))
        + 2 ^ 48 * (s.w2 * (m.value / 2 ^ 16)) := by
    have hM : m.value = m.value % 2 ^ 16 + 2 ^ 16 * (m.value / 2 ^ 16) :=
      (Nat.mod_add_div _ _).symm
    generalize m.value % 2 ^ 16 = a at hM ⊢
    generalize m.value / 2 ^ 16 = b at hM ⊢
    rw [hM]
    unfold Words.value
    ring
  rw [hsplit]
  generalize (s.w0 + s.w1 * 2 ^ 16) * m.value = P
  generalize s.w2 * (m.value % 2 ^ 16) = Q
  generalize s.w2 * (m.value / 2 ^ 16) = T
  omega

/-! ## Reading of the extraction expressions -/

theorem or_shift15 (a b : Nat) (ha : a < 2 ^ 15) : (b <<< 15) ||| a = b * 2 ^ 15 + a := by
  rw [Nat.shiftLeft_eq, Nat.mul_comm b, ← Nat.mul_add_lt_is_or ha b]

theorem lbits_eq (s : Words) (h : s.wf) :
    (s.w2 <<< 15) ||| (s.w1 >>> 1) = s.value / 2 ^ 17 := by
  obtain ⟨h0, h1, h2⟩ := h
  rw [Nat.shiftRight_eq_div_pow, or_shift15 _ _ (by omega)]
  unfold Words.value
  omega

theorem mbits_eq (s : Words) (h : s.wf) :
    (s.w2 <<< 16) ||| s.w1 = s.value / 2 ^ 16 := by
  obtain ⟨h0, h1, h2⟩ := h
  rw [Nat.lor_comm, or_shift16 _ _ h1]
  unfold Words.value
  omega

theorem int32_of_lt (p : Nat) (h : p < 2 ^ 32) :
    int32 p = if p < 2 ^ 31 then (p : Int) else (p : Int) - 2 ^ 32 := by
  unfold int32
  rw [Nat.mod_eq_of_lt h]

theorem int32_bounds (p : Nat) : -2 ^ 31 ≤ int32 p ∧ int32 p ≤ 2 ^ 31 - 1 := by
  unfold int32
  have hp : p % 2 ^ 32 < 2 ^ 32 := Nat.mod_lt _ (by norm_num)
  split <;> omega

theorem getll_scaled_bounds (s : Words) (h : s.wf) :
    (r48_getll s : ℚ) * (1 / 2 ^ 48) = (s.value : ℚ) / 2 ^ 48 ∧
      0 ≤ (r48_getll s : ℚ) * (1 / 2 ^ 48) ∧ (r48_getll s : ℚ) * (1 / 2 ^ 48) < 1 := by
  have hv := value_lt s h
  rw [r48_getll_eq_value s h]
  have hq : (s.value : ℚ) < 2 ^ 48 := by exact_mod_cast hv
  have h0 : (0 : ℚ) ≤ (s.value : ℚ) := Nat.cast_nonneg _
  refine ⟨by ring, by positivity, ?_⟩
  rw [mul_one_div, div_lt_one (by positivity)]
  exact hq

/-! ## The iteration -/

/-- C1: for a buffer of 16-bit words, a multiplier held as three 16-bit words and
any addend (a 16-bit one in particular), `r48_iterate` (with `unsigned long long`
arithmetic modulo `2^64`) writes back words whose 48-bit value is
`(S * A + C) mod 2^48`. -/
theorem r48_iterate_lcg (r48multiplicand : Words) (r48addend : Nat) (state : Words)
    (hs : state.wf) (hm : r48multiplicand.wf) :
    (r48_iterate r48multiplicand r48addend state).w0
        + (r48_iterate r48multiplicand r48addend state).w1 * 2 ^ 16
        + (r48_iterate r48multiplicand r48addend state).w2 * 2 ^ 32
      = ((state.w0 + state.w1 * 2 ^ 16 + state.w2 * 2 ^ 32)
          * (r48multiplicand.w0 + r48multiplicand.w1 * 2 ^ 16 + r48multiplicand.w2 * 2 ^ 32)
          + r48addend) % 2 ^ 48 := by
  have h := r48_iterate_value r48multiplicand r48addend state
  rw [iterResult_eq _ _ _ hs hm] at h
  exact h

/-- Instance of C1 at the built-in seed with the default multiplier and addend. -/
theorem r48_iterate_lcg_witness :
    (Words.mk 0x330e 0xabcd 0x1234).wf ∧ (Words.mk 0xe66d 0xdeec 0x0005).wf ∧
    (r48_iterate ⟨0xe66d, 0xdeec, 0x0005⟩ 11 ⟨0x330e, 0xabcd, 0x1234⟩).w0
        + (r48_iterate ⟨0xe66d, 0xdeec, 0x0005⟩ 11 ⟨0x330e, 0xabcd, 0x1234⟩).w1 * 2 ^ 16
        + (r48_iterate ⟨0xe66d, 0xdeec, 0x0005⟩ 11 ⟨0x330e, 0xabcd, 0x1234⟩).w2 * 2 ^ 32
      = ((0x330e + 0xabcd * 2 ^ 16 + 0x1234 * 2 ^ 32)
          * (0xe66d + 0xdeec * 2 ^ 16 + 0x0005 * 2 ^ 32) + 11) % 2 ^ 48 :=
  ⟨by decide, by decide,
    r48_iterate_lcg ⟨0xe66d, 0xdeec, 0x0005⟩ 11 ⟨0x330e, 0xabcd, 0x1234⟩
      (by decide) (by decide)⟩

theorem bounded_of_wf (s : Words) (h : s.wf) : s.bounded := by
  unfold Words.bounded
  have hv := value_lt s h
  rw [← r48_getll_eq_value s h] at hv
  exact ⟨h.1, h.2.1, h.2.2, hv⟩

theorem ushort_lt (x : Int) : ushort x < 2 ^ 16 := by
  unfold ushort
  omega

/-- C2: after `r48_iterate` every state word is below `2^16` and the assembled
state is below `2^48`; so is the persistent state after `lrand48`, `mrand48`,
`drand48`, and after `lcong48`, `seed48`, `srand48` called with 16-bit words. -/
theorem state_stays_48_bit (e : Engine) (r48multiplicand : Words) (r48addend : Nat)
    (state : Words) (param : Fin 7 → Nat) (seed16v : Words) (seedval : Int)
    (hparam : ∀ i, param i < 2 ^ 16) (hseed : seed16v.wf) :
    (r48_iterate r48multiplicand r48addend state).bounded ∧
      (lrand48 e).2.r48state.bounded ∧
      (mrand48 e).2.r48state.bounded ∧
      (drand48 e).2.r48state.bounded ∧
      (lcong48 e param).r48state.bounded ∧
      (seed48 e seed16v).r48state.bounded ∧
      (srand48 e seedval).r48state.bounded := by
  refine ⟨?_, ?_, ?_, ?_, ?_, ?_, ?_⟩
  · exact bounded_of_wf _ (r48_iterate_wf _ _ _)
  · exact bounded_of_wf _ (r48_iterate_wf _ _ _)
  · exact bounded_of_wf _ (r48_iterate_wf _ _ _)
  · exact bounded_of_wf _ (r48_iterate_wf _ _ _)
  · exact bounded_of_wf _ ⟨hparam 0, hparam 1, hparam 2⟩
  · exact bounded_of_wf _ hseed
  · exact bounded_of_wf _ ⟨show R48_INITIAL_VAL &&& 0xffff < 2 ^ 16 by decide,
      ushort_lt _, ushort_lt _⟩

/-- Instance of C2 at the start-up engine, a 7-word block and a seed. -/
theorem state_stays_48_bit_witness :
    (∀ i, (![1, 2, 3, 0xe66d, 0xdeec, 5, 11] : Fin 7 → Nat) i < 2 ^ 16) ∧
    (Words.mk 0xffff 0xffff 0xffff).wf ∧
    ((r48_iterate ⟨0xe66d, 0xdeec, 5⟩ 11 ⟨0xffff, 0xffff, 0xffff⟩).bounded ∧
      (lrand48 ⟨⟨0x330e, 0xabcd, 0x1234⟩, ⟨0xe66d, 0xdeec, 5⟩, 11, ⟨0, 0, 0⟩⟩).2.r48state.bounded ∧
      (mrand48 ⟨⟨0x330e, 0xabcd, 0x1234⟩, ⟨0xe66d, 0xdeec, 5⟩, 11, ⟨0, 0, 0⟩⟩).2.r48state.bounded ∧
      (drand48 ⟨⟨0x330e, 0xabcd, 0x1234⟩, ⟨0xe66d, 0xdeec, 5⟩, 11, ⟨0, 0, 0⟩⟩).2.r48state.bounded ∧
      (lcong48 ⟨⟨0x330e, 0xabcd, 0x1234⟩, ⟨0xe66d, 0xdeec, 5⟩, 11, ⟨0, 0, 0⟩⟩
        ![1, 2, 3, 0xe66d, 0xdeec, 5, 11]).r48state.bounded ∧
      (seed48 ⟨⟨0x330e, 0xabcd, 0x1234⟩, ⟨0xe66d, 0xdeec, 5⟩, 11, ⟨0, 0, 0⟩⟩
        ⟨0xffff, 0xffff, 0xffff⟩).r48state.bounded ∧
      (srand48 ⟨⟨0x330e, 0xabcd, 0x1234⟩, ⟨0xe66d, 0xdeec, 5⟩, 11, ⟨0, 0, 0⟩⟩
        (-1)).r48state.bounded) :=
  ⟨by decide, by decide,
    state_stays_48_bit ⟨⟨0x330e, 0xabcd, 0x1234⟩, ⟨0xe66d, 0xdeec, 5⟩, 11, ⟨0, 0, 0⟩⟩
      ⟨0xe66d, 0xdeec, 5⟩ 11 ⟨0xffff, 0xffff, 0xffff⟩ ![1, 2, 3, 0xe66d, 0xdeec, 5, 11]
      ⟨0xffff, 0xffff, 0xffff⟩ (-1) (by decide) (by decide)⟩

/-! ## Output extraction -/

/-- C3: `lrand48` (internal state) and `nrand48` (caller's buffer) iterate first and
return `(s2 << 15) | (s1 >> 1)` of the iterated words; that is `floor(S' / 2^17)` and
lies in `[0, 2^31 - 1]`.  From the words `(0x330E, 0, 0)` that `srand48(0)` installs,
with the default multiplier and addend, the value is 366850414. -/
theorem lrand48_nrand48_value (e : Engine) (xsubi st o : Words) (c : Nat) (m : Words) :
    ((lrand48 e).2.r48state = r48_iterate e.r48multiplicand e.r48addend e.r48state ∧
      (lrand48 e).1 = ((((lrand48 e).2.r48state.w2 <<< 15) |||
          ((lrand48 e).2.r48state.w1 >>> 1) : Nat) : Int) ∧
      (lrand48 e).1 = (((lrand48 e).2.r48state.value / 2 ^ 17 : Nat) : Int) ∧
      0 ≤ (lrand48 e).1 ∧ (lrand48 e).1 ≤ 2 ^ 31 - 1) ∧
    ((nrand48 e xsubi).2.1 = r48_iterate e.r48multiplicand e.r48addend xsubi ∧
      (nrand48 e xsubi).1 = ((((nrand48 e xsubi).2.1.w2 <<< 15) |||
          ((nrand48 e xsubi).2.1.w1 >>> 1) : Nat) : Int) ∧
      (nrand48 e xsubi).1 = (((nrand48 e xsubi).2.1.value / 2 ^ 17 : Nat) : Int) ∧
      0 ≤ (nrand48 e xsubi).1 ∧ (nrand48 e xsubi).1 ≤ 2 ^ 31 - 1) ∧
    ((srand48 ⟨st, m, c, o⟩ 0).r48state = ⟨0x330e, 0, 0⟩ ∧
      (lrand48 ⟨⟨0x330e, 0, 0⟩, ⟨0xe66d, 0xdeec, 0x0005⟩, 11, o⟩).1 = 366850414 ∧
      (nrand48 ⟨st, ⟨0xe66d, 0xdeec, 0x0005⟩, 11, o⟩ ⟨0x330e, 0, 0⟩).1 = 366850414) := by
  have key : ∀ s : Words, s.wf →
      ((((s.w2 <<< 15) ||| (s.w1 >>> 1) : Nat) : Int) = ((s.value / 2 ^ 17 : Nat) : Int)) ∧
      (0 : Int) ≤ (((s.w2 <<< 15) ||| (s.w1 >>> 1) : Nat) : Int) ∧
      ((((s.w2 <<< 15) ||| (s.w1 >>> 1) : Nat) : Int)) ≤ 2 ^ 31 - 1 := by
    intro s hs
    have hv := value_lt s hs
    rw [lbits_eq s hs]
    refine ⟨rfl, by omega, ?_⟩
    omega
  refine ⟨?_, ?_, ?_⟩
  · have hw := r48_iterate_wf e.r48multiplicand e.r48addend e.r48state
    obtain ⟨k1, k2, k3⟩ := key _ hw
    exact ⟨rfl, rfl, k1, k2, k3⟩
  · have hw := r48_iterate_wf e.r48multiplicand e.r48addend xsubi
    obtain ⟨k1, k2, k3⟩ := key _ hw
    exact ⟨rfl, rfl, k1, k2, k3⟩
  · refine ⟨rfl, ?_, ?_⟩
    · exact (show (lrand48 ⟨⟨0x330e, 0, 0⟩, ⟨0xe66d, 0xdeec, 0x0005⟩, 11, ⟨0, 0, 0⟩⟩).1
        = 366850414 by decide)
    · exact (show (nrand48 ⟨⟨0, 0, 0⟩, ⟨0xe66d, 0xdeec, 0x0005⟩, 11, ⟨0, 0, 0⟩⟩
        ⟨0x330e, 0, 0⟩).1 = 366850414 by decide)

/-- C4: `mrand48` (internal state) and `jrand48` (caller's buffer) iterate first and
return the 32-bit pattern `(s2 << 16) | s1` of the iterated words read as a
two's-complement `int`: `floor(S' / 2^16)` when `s2 < 0x8000`, and
`floor(S' / 2^16) - 2^32` otherwise; the result lies in `[-2^31, 2^31 - 1]`. -/
theorem mrand48_jrand48_value (e : Engine) (xsubi : Words) :
    ((mrand48 e).2.r48state = r48_iterate e.r48multiplicand e.r48addend e.r48state ∧
      (mrand48 e).1 = int32 (((mrand48 e).2.r48state.w2 <<< 16) ||| (mrand48 e).2.r48state.w1) ∧
      (mrand48 e).1 =
        (if (mrand48 e).2.r48state.w2 < 0x8000
          then (((mrand48 e).2.r48state.value / 2 ^ 16 : Nat) : Int)
          else (((mrand48 e).2.r48state.value / 2 ^ 16 : Nat) : Int) - 2 ^ 32) ∧
      -2 ^ 31 ≤ (mrand48 e).1 ∧ (mrand48 e).1 ≤ 2 ^ 31 - 1) ∧
    ((jrand48 e xsubi).2.1 = r48_iterate e.r48multiplicand e.r48addend xsubi ∧
      (jrand48 e xsubi).1 = int32 (((jrand48 e xsubi).2.1.w2 <<< 16) ||| (jrand48 e xsubi).2.1.w1) ∧
      (jrand48 e xsubi).1 =
        (if (jrand48 e xsubi).2.1.w2 < 0x8000
          then (((jrand48 e xsubi).2.1.value / 2 ^ 16 : Nat) : Int)
          else (((jrand48 e xsubi).2.1.value / 2 ^ 16 : Nat) : Int) - 2 ^ 32) ∧
      -2 ^ 31 ≤ (jrand48 e xsubi).1 ∧ (jrand48 e xsubi).1 ≤ 2 ^ 31 - 1) := by
  have key : ∀ s : Words, s.wf →
      int32 ((s.w2 <<< 16) ||| s.w1) =
        (if s.w2 < 0x8000 then ((s.value / 2 ^ 16 : Nat) : Int)
          else ((s.value / 2 ^ 16 : Nat) : Int) - 2 ^ 32) := by
    intro s hs
    obtain ⟨h0, h1, h2⟩ := hs
    have hv : s.value / 2 ^ 16 = s.w1 + s.w2 * 2 ^ 16 := by
      unfold Words.value; omega
    rw [mbits_eq s ⟨h0, h1, h2⟩, hv, int32_of_lt _ (by omega)]
    by_cases hlt : s.w2 < 0x8000
    · rw [if_pos hlt, if_pos (by omega)]
    · rw [if_neg hlt, if_neg (by omega)]
  refine ⟨?_, ?_⟩
  · have hw := r48_iterate_wf e.r48multiplicand e.r48addend e.r48state
    exact ⟨rfl, rfl, key _ hw, (int32_bounds _).1, (int32_bounds _).2⟩
  · have hw := r48_iterate_wf e.r48multiplicand e.r48addend xsubi
    exact ⟨rfl, rfl, key _ hw, (int32_bounds _).1, (int32_bounds _).2⟩

/-- C5: `drand48` and `erand48` return the iterated 48-bit state value times `2^-48`;
as the exact rational `S' / 2^48` the result `d` satisfies `0 <= d < 1`. -/
theorem drand48_erand48_value (e : Engine) (xsubi : Words) :
    ((drand48 e).2.r48state = r48_iterate e.r48multiplicand e.r48addend e.r48state ∧
      (drand48 e).1 = (r48_getll (drand48 e).2.r48state : ℚ) * (1 / 2 ^ 48) ∧
      (drand48 e).1 = ((drand48 e).2.r48state.value : ℚ) / 2 ^ 48 ∧
      0 ≤ (drand48 e).1 ∧ (drand48 e).1 < 1) ∧
    ((erand48 e xsubi).2.1 = r48_iterate e.r48multiplicand e.r48addend xsubi ∧
      (erand48 e xsubi).1 = (r48_getll (erand48 e xsubi).2.1 : ℚ) * (1 / 2 ^ 48) ∧
      (erand48 e xsubi).1 = ((erand48 e xsubi).2.1.value : ℚ) / 2 ^ 48 ∧
      0 ≤ (erand48 e xsubi).1 ∧ (erand48 e xsubi).1 < 1) := by
  refine ⟨?_, ?_⟩
  · obtain ⟨k1, k2, k3⟩ :=
      getll_scaled_bounds _ (r48_iterate_wf e.r48multiplicand e.r48addend e.r48state)
    exact ⟨rfl, rfl, k1, k2, k3⟩
  · obtain ⟨k1, k2, k3⟩ :=
      getll_scaled_bounds _ (r48_iterate_wf e.r48multiplicand e.r48addend xsubi)
    exact ⟨rfl, rfl, k1, k2, k3⟩

/-! ## Seed and parameter management -/

/-- C6: `seed48(y)` returns the three words the persistent state held just before the
call; hence `seed48(x)` followed immediately by `seed48(y)` returns `x`, whatever the
engine was before. -/
theorem seed48_returns_previous_state (e : Engine) (x y : Words) :
    (seed48 e y).old_seed = e.r48state ∧ (seed48 (seed48 e x) y).old_seed = x :=
  ⟨rfl, rfl⟩

/-- C7: after `seed48(s)` the persistent state is `s`, the multiplier is
`0x5DEECE66D` (words `0xE66D, 0xDEEC, 0x0005`) and the addend is 11, for every prior
engine, one left by `lcong48` included. -/
theorem seed48_installs_seed_and_defaults (e : Engine) (param : Fin 7 → Nat) (s : Words) :
    ((seed48 e s).r48state = s ∧
      (seed48 e s).r48multiplicand = ⟨0xe66d, 0xdeec, 0x0005⟩ ∧
      r48_getll (seed48 e s).r48multiplicand = 0x5deece66d ∧
      (seed48 e s).r48addend = 11) ∧
    ((seed48 (lcong48 e param) s).r48state = s ∧
      (seed48 (lcong48 e param) s).r48multiplicand = ⟨0xe66d, 0xdeec, 0x0005⟩ ∧
      r48_getll (seed48 (lcong48 e param) s).r48multiplicand = 0x5deece66d ∧
      (seed48 (lcong48 e param) s).r48addend = 11) :=
  have hA : r48_getll ⟨0xe66d, 0xdeec, 0x0005⟩ = 0x5deece66d := by decide
  ⟨⟨rfl, rfl, hA, rfl⟩, ⟨rfl, rfl, hA, rfl⟩⟩

theorem run_congr (c : GenCall) (e1 e2 : Engine) (h : e1.sameGen e2) :
    (c.run e1).1 = (c.run e2).1 ∧ (c.run e1).2.sameGen (c.run e2).2 := by
  obtain ⟨hs, hm, ha⟩ := h
  cases c <;>
    simp only [GenCall.run, lrand48, mrand48, drand48, Engine.sameGen, hs, hm, ha,
      and_self]

theorem runCalls_congr (cs : List GenCall) :
    ∀ e1 e2 : Engine, e1.sameGen e2 →
      (runCalls cs e1).1 = (runCalls cs e2).1 ∧ (runCalls cs e1).2.sameGen (runCalls cs e2).2 := by
  induction cs with
  | nil => intro e1 e2 h; exact ⟨rfl, h⟩
  | cons c cs ih =>
    intro e1 e2 h
    obtain ⟨ho, hn⟩ := run_congr c e1 e2 h
    obtain ⟨io, inx⟩ := ih _ _ hn
    simp only [runCalls]
    exact ⟨by rw [ho, io], inx⟩

/-- C8: for every seed `s` and every two engines, `seed48(s)` on each followed by the
same finite sequence of `lrand48`/`mrand48`/`drand48` calls gives the same outputs and
the same final state, multiplier and addend. -/
theorem reseed_determinism (e1 e2 : Engine) (s : Words) (calls : List GenCall) :
    (runCalls calls (seed48 e1 s)).1 = (runCalls calls (seed48 e2 s)).1 ∧
      (runCalls calls (seed48 e1 s)).2.r48state = (runCalls calls (seed48 e2 s)).2.r48state ∧
      (runCalls calls (seed48 e1 s)).2.r48multiplicand
        = (runCalls calls (seed48 e2 s)).2.r48multiplicand ∧
      (runCalls calls (seed48 e1 s)).2.r48addend = (runCalls calls (seed48 e2 s)).2.r48addend :=
  runCalls_congr calls (seed48 e1 s) (seed48 e2 s) ⟨rfl, rfl, rfl⟩

/-- C9: `lcong48(p)` installs state `(p[0], p[1], p[2])`, multiplier
`(p[3], p[4], p[5])` and addend `p[6]`; the next generator call, internal or on any
caller buffer `b`, iterates its state to `(S * A' + C') mod 2^48` with that multiplier
`A'` and addend `C'`. -/
theorem lcong48_installs_parameters (e : Engine) (p : Fin 7 → Nat) (b : Words)
    (hp : ∀ i, p i < 2 ^ 16) (hb : b.wf) :
    ((lcong48 e p).r48state = ⟨p 0, p 1, p 2⟩ ∧
      (lcong48 e p).r48multiplicand = ⟨p 3, p 4, p 5⟩ ∧
      (lcong48 e p).r48addend = p 6) ∧
    ((lrand48 (lcong48 e p)).2.r48state.value
        = ((p 0 + p 1 * 2 ^ 16 + p 2 * 2 ^ 32) * (p 3 + p 4 * 2 ^ 16 + p 5 * 2 ^ 32) + p 6)
            % 2 ^ 48 ∧
      (mrand48 (lcong48 e p)).2.r48state.value
        = ((p 0 + p 1 * 2 ^ 16 + p 2 * 2 ^ 32) * (p 3 + p 4 * 2 ^ 16 + p 5 * 2 ^ 32) + p 6)
            % 2 ^ 48 ∧
      (drand48 (lcong48 e p)).2.r48state.value
        = ((p 0 + p 1 * 2 ^ 16 + p 2 * 2 ^ 32) * (p 3 + p 4 * 2 ^ 16 + p 5 * 2 ^ 32) + p 6)
            % 2 ^ 48) ∧
    ((nrand48 (lcong48 e p) b).2.1.value
        = (b.value * (p 3 + p 4 * 2 ^ 16 + p 5 * 2 ^ 32) + p 6) % 2 ^ 48 ∧
      (jrand48 (lcong48 e p) b).2.1.value
        = (b.value * (p 3 + p 4 * 2 ^ 16 + p 5 * 2 ^ 32) + p 6) % 2 ^ 48 ∧
      (erand48 (lcong48 e p) b).2.1.value
        = (b.value * (p 3 + p 4 * 2 ^ 16 + p 5 * 2 ^ 32) + p 6) % 2 ^ 48) := by
  have hm : (Words.mk (p 3) (p 4) (p 5)).wf := ⟨hp 3, hp 4, hp 5⟩
  have hs : (Words.mk (p 0) (p 1) (p 2)).wf := ⟨hp 0, hp 1, hp 2⟩
  have hint : (r48_iterate ⟨p 3, p 4, p 5⟩ (p 6) ⟨p 0, p 1, p 2⟩).value
      = ((p 0 + p 1 * 2 ^ 16 + p 2 * 2 ^ 32) * (p 3 + p 4 * 2 ^ 16 + p 5 * 2 ^ 32) + p 6)
          % 2 ^ 48 := by
    rw [r48_iterate_value, iterResult_eq _ _ _ hs hm]
    rfl
  have hext : (r48_iterate ⟨p 3, p 4, p 5⟩ (p 6) b).value
      = (b.value * (p 3 + p 4 * 2 ^ 16 + p 5 * 2 ^ 32) + p 6) % 2 ^ 48 := by
    rw [r48_iterate_value, iterResult_eq _ _ _ hb hm]
    rfl
  exact ⟨⟨rfl, rfl, rfl⟩, ⟨hint, hint, hint⟩, ⟨hext, hext, hext⟩⟩

/-- Instance of C9: a block with multiplier 3 and addend 7, seed 5, caller buffer 2. -/
theorem lcong48_installs_parameters_witness :
    (∀ i, (![5, 0, 0, 3, 0, 0, 7] : Fin 7 → Nat) i < 2 ^ 16) ∧ (Words.mk 2 0 0).wf ∧
    (lrand48 (lcong48 ⟨⟨0x330e, 0xabcd, 0x1234⟩, ⟨0xe66d, 0xdeec, 5⟩, 11, ⟨0, 0, 0⟩⟩
        ![5, 0, 0, 3, 0, 0, 7])).2.r48state.value = 22 ∧
    (nrand48 (lcong48 ⟨⟨0x330e, 0xabcd, 0x1234⟩, ⟨0xe66d, 0xdeec, 5⟩, 11, ⟨0, 0, 0⟩⟩
        ![5, 0, 0, 3, 0, 0, 7]) ⟨2, 0, 0⟩).2.1.value = 13 :=
  ⟨by decide, by decide,
    (lcong48_installs_parameters ⟨⟨0x330e, 0xabcd, 0x1234⟩, ⟨0xe66d, 0xdeec, 5⟩, 11, ⟨0, 0, 0⟩⟩
      ![5, 0, 0, 3, 0, 0, 7] ⟨2, 0, 0⟩ (by decide) (by decide)).2.1.1,
    (lcong48_installs_parameters ⟨⟨0x330e, 0xabcd, 0x1234⟩, ⟨0xe66d, 0xdeec, 5⟩, 11, ⟨0, 0, 0⟩⟩
      ![5, 0, 0, 3, 0, 0, 7] ⟨2, 0, 0⟩ (by decide) (by decide)).2.2.1⟩

theorem ldiff_mask16 (n : Nat) : Nat.ldiff 65535 n = 65535 - n % 65536 := by
  apply Nat.eq_of_testBit_eq
  intro i
  have h : n % 2 ^ 16 < 2 ^ 16 := Nat.mod_lt _ (by norm_num)
  have e1 : (65535 : Nat) - n % 65536 = 2 ^ 16 - (n % 2 ^ 16 + 1) := by omega
  have e2 : (65535 : Nat) = 2 ^ 16 - 1 := by norm_num
  rw [Nat.testBit_ldiff, e1, Nat.testBit_two_pow_sub_succ h, Nat.testBit_mod_two_pow, e2,
    Nat.testBit_two_pow_sub_one]
  by_cases hi : i < 16 <;> simp [hi]

theorem land_mask16 (v : Int) : Int.land v 0xffff = v % 2 ^ 16 := by
  cases v with
  | ofNat n =>
    show ((n &&& 65535 : Nat) : Int) = _
    have := Nat.and_pow_two_sub_one_eq_mod n 16
    norm_num at this
    rw [this]
    norm_num
  | negSucc n =>
    show ((Nat.ldiff 65535 n : Nat) : Int) = _
    rw [ldiff_mask16, Int.negSucc_eq]
    omega

theorem srand48_words (e : Engine) (v : Int) :
    (srand48 e v).r48state = ⟨0x330e, (v % 2 ^ 16).toNat, (v / 2 ^ 16 % 2 ^ 16).toNat⟩ := by
  have h0 : R48_INITIAL_VAL &&& 0xffff = 0x330e := by decide
  have h1 : ushort (Int.land v 0xffff) = (v % 2 ^ 16).toNat := by
    unfold ushort
    rw [land_mask16]
    omega
  have h2 : ushort (Int.land (v >>> (16 : Nat)) 0xffff) = (v / 2 ^ 16 % 2 ^ 16).toNat := by
    unfold ushort
    rw [land_mask16, Int.shiftRight_eq_div_pow]
    norm_num
  simp only [srand48, h0, h1, h2]

/-- C10: for every `seedval`, negative ones included, `srand48(seedval)` leaves
`s0 = 0x330E`, `s1 = seedval mod 2^16` and `s2 = floor(seedval / 2^16) mod 2^16`;
these are bits 0..15 and 16..31 of the two's-complement pattern of `seedval` in a
32-bit and in a 64-bit `long`, and the state depends only on `seedval mod 2^32`. -/
theorem srand48_state (e : Engine) (seedval : Int) :
    (srand48 e seedval).r48state
        = ⟨0x330e, (seedval % 2 ^ 16).toNat, (seedval / 2 ^ 16 % 2 ^ 16).toNat⟩ ∧
      (srand48 e seedval).r48state
        = ⟨0x330e, (seedval % 2 ^ 32).toNat % 2 ^ 16,
            (seedval % 2 ^ 32).toNat / 2 ^ 16 % 2 ^ 16⟩ ∧
      (srand48 e seedval).r48state
        = ⟨0x330e, (seedval % 2 ^ 64).toNat % 2 ^ 16,
            (seedval % 2 ^ 64).toNat / 2 ^ 16 % 2 ^ 16⟩ ∧
      (srand48 e seedval).r48state = (srand48 e (seedval % 2 ^ 32)).r48state := by
  refine ⟨srand48_words e seedval, ?_, ?_, ?_⟩
  · rw [srand48_words]
    congr 1 <;> omega
  · rw [srand48_words]
    congr 1 <;> omega
  · rw [srand48_words, srand48_words]
    congr 1 <;> omega

/-! ## Frame properties -/

theorem ext_run_engine (c : ExtCall) (e : Engine) (xsubi : Words) : (c.run e xsubi).2.2 = e := by
  cases c <;> rfl

theorem runSteps_internal (ss : List Step) :
    ∀ (e : Engine) (bufs : Nat → Words),
      (runSteps ss e bufs).1 = (runCalls (internalCalls ss) e).1 ∧
        (runSteps ss e bufs).2.1 = (runCalls (internalCalls ss) e).2 := by
  induction ss with
  | nil => intro e bufs; exact ⟨rfl, rfl⟩
  | cons s ss ih =>
    intro e bufs
    cases s with
    | internal c =>
      obtain ⟨h1, h2⟩ := ih (c.run e).2 bufs
      simp only [runSteps, internalCalls, runCalls]
      exact ⟨by rw [h1], h2⟩
    | external c i =>
      simp only [runSteps, internalCalls, ext_run_engine]
      exact ih e _

/-- C11: `nrand48`, `jrand48` and `erand48` on a caller buffer leave the three words
of the persistent state as they were; so the values returned by the internal
generators in a sequence of steps, and the engine it ends in, are those of the same
sequence with the external-buffer calls removed. -/
theorem external_calls_leave_internal_state (e : Engine) (xsubi : Words) (steps : List Step)
    (bufs : Nat → Words) :
    ((nrand48 e xsubi).2.2.r48state = e.r48state ∧
      (jrand48 e xsubi).2.2.r48state = e.r48state ∧
      (erand48 e xsubi).2.2.r48state = e.r48state) ∧
    (runSteps steps e bufs).1 = (runCalls (internalCalls steps) e).1 ∧
    (runSteps steps e bufs).2.1.r48state = (runCalls (internalCalls steps) e).2.r48state := by
  obtain ⟨h1, h2⟩ := runSteps_internal steps e bufs
  exact ⟨⟨rfl, rfl, rfl⟩, h1, by rw [h2]⟩

/-- C12: `lrand48`, `nrand48`, `mrand48`, `jrand48`, `drand48`, `erand48` and
`srand48` leave the three multiplier words and the addend as they were; `srand48`
after `lcong48(p)` keeps the multiplier `(p[3], p[4], p[5])` and the addend `p[6]`. -/
theorem multiplier_addend_frame (e : Engine) (xsubi : Words) (seedval : Int)
    (p : Fin 7 → Nat) :
    ((lrand48 e).2.r48multiplicand = e.r48multiplicand ∧ (lrand48 e).2.r48addend = e.r48addend) ∧
    ((nrand48 e xsubi).2.2.r48multiplicand = e.r48multiplicand ∧
      (nrand48 e xsubi).2.2.r48addend = e.r48addend) ∧
    ((mrand48 e).2.r48multiplicand = e.r48multiplicand ∧ (mrand48 e).2.r48addend = e.r48addend) ∧
    ((jrand48 e xsubi).2.2.r48multiplicand = e.r48multiplicand ∧
      (jrand48 e xsubi).2.2.r48addend = e.r48addend) ∧
    ((drand48 e).2.r48multiplicand = e.r48multiplicand ∧ (drand48 e).2.r48addend = e.r48addend) ∧
    ((erand48 e xsubi).2.2.r48multiplicand = e.r48multiplicand ∧
      (erand48 e xsubi).2.2.r48addend = e.r48addend) ∧
    ((srand48 e seedval).r48multiplicand = e.r48multiplicand ∧
      (srand48 e seedval).r48addend = e.r48addend) ∧
    ((srand48 (lcong48 e p) seedval).r48multiplicand = ⟨p 3, p 4, p 5⟩ ∧
      (srand48 (lcong48 e p) seedval).r48addend = p 6) := by
  have hd : (drand48 e).2.r48multiplicand = e.r48multiplicand ∧
      (drand48 e).2.r48addend = e.r48addend := by
    simp only [drand48, and_self]
  have he : (erand48 e xsubi).2.2.r48multiplicand = e.r48multiplicand ∧
      (erand48 e xsubi).2.2.r48addend = e.r48addend := by
    simp only [erand48, and_self]
  have hs : (srand48 e seedval).r48multiplicand = e.r48multiplicand ∧
      (srand48 e seedval).r48addend = e.r48addend := by
    unfold srand48
    exact ⟨rfl, rfl⟩
  have hl : (srand48 (lcong48 e p) seedval).r48multiplicand = ⟨p 3, p 4, p 5⟩ ∧
      (srand48 (lcong48 e p) seedval).r48addend = p 6 := by
    simp only [srand48, lcong48, and_self]
  exact ⟨⟨rfl, rfl⟩, ⟨rfl, rfl⟩, ⟨rfl, rfl⟩, ⟨rfl, rfl⟩, hd, he, hs, hl⟩

/-! ## Relations between the generators -/

theorem int32_emod (p : Nat) (h : p < 2 ^ 32) : ((int32 p) % 2 ^ 32).toNat = p := by
  rw [int32_of_lt p h]
  split <;> omega

theorem signed_unsigned_words (s : Words) (h : s.wf) :
    ((((s.w2 <<< 15) ||| (s.w1 >>> 1) : Nat) : Int))
      = ((((int32 ((s.w2 <<< 16) ||| s.w1)) % 2 ^ 32).toNat >>> 1 : Nat) : Int) := by
  have hv := value_lt s h
  have hp : s.value / 2 ^ 16 < 2 ^ 32 := by omega
  rw [lbits_eq s h, mbits_eq s h, int32_emod _ hp, Nat.shiftRight_eq_div_pow]
  congr 1
  omega

/-- C13: from the same starting state and parameters, the value `u` of
`lrand48`/`nrand48` and the value `m` of `mrand48`/`jrand48` satisfy
`u = (m mod 2^32) >> 1`. -/
theorem signed_unsigned_consistency (e : Engine) (xsubi : Words) :
    (lrand48 e).1 = (((((mrand48 e).1 % 2 ^ 32).toNat) >>> 1 : Nat) : Int) ∧
    (nrand48 e xsubi).1 = (((((jrand48 e xsubi).1 % 2 ^ 32).toNat) >>> 1 : Nat) : Int) ∧
    (lrand48 e).2.r48state = (mrand48 e).2.r48state ∧
    (nrand48 e xsubi).2.1 = (jrand48 e xsubi).2.1 :=
  ⟨signed_unsigned_words _ (r48_iterate_wf e.r48multiplicand e.r48addend e.r48state),
    signed_unsigned_words _ (r48_iterate_wf e.r48multiplicand e.r48addend xsubi), rfl, rfl⟩

/-- C14: for every state `s`, multiplier `m` and addend `c`, the internal generator
run with persistent state `s` returns the same value and leaves the same state as its
external counterpart run on a caller buffer holding `s`: `lrand48`/`nrand48`,
`mrand48`/`jrand48`, `drand48`/`erand48`. -/
theorem internal_external_agree (s m o o' s' : Words) (c : Nat) :
    ((lrand48 ⟨s, m, c, o⟩).1 = (nrand48 ⟨s', m, c, o'⟩ s).1 ∧
      (lrand48 ⟨s, m, c, o⟩).2.r48state = (nrand48 ⟨s', m, c, o'⟩ s).2.1) ∧
    ((mrand48 ⟨s, m, c, o⟩).1 = (jrand48 ⟨s', m, c, o'⟩ s).1 ∧
      (mrand48 ⟨s, m, c, o⟩).2.r48state = (jrand48 ⟨s', m, c, o'⟩ s).2.1) ∧
    ((drand48 ⟨s, m, c, o⟩).1 = (erand48 ⟨s', m, c, o'⟩ s).1 ∧
      (drand48 ⟨s, m, c, o⟩).2.r48state = (erand48 ⟨s', m, c, o'⟩ s).2.1) :=
  ⟨⟨rfl, rfl⟩, ⟨rfl, rfl⟩, ⟨rfl, rfl⟩⟩

/-! ## Process start -/

/-- C15: at process start the persistent state is `0x1234ABCD330E` (words `0x330E`,
`0xABCD`, `0x1234`), the multiplier is `0x5DEECE66D` (words `0xE66D`, `0xDEEC`,
`0x0005`) and the addend is 11. -/
theorem initial_engine :
    initial.r48state = ⟨0x330e, 0xabcd, 0x1234⟩ ∧
    r48_getll initial.r48state = 0x1234abcd330e ∧
    initial.r48multiplicand = ⟨0xe66d, 0xdeec, 0x0005⟩ ∧
    r48_getll initial.r48multiplicand = 0x5deece66d ∧
    initial.r48addend = 11 :=
  have hS : r48_getll ⟨0x330e, 0xabcd, 0x1234⟩ = 0x1234abcd330e := by decide
  have hA : r48_getll ⟨0xe66d, 0xdeec, 0x0005⟩ = 0x5deece66d := by decide
  ⟨rfl, hS, rfl, hA, rfl⟩

/-! ## `rand.c` -/

theorem ldiff_mask15 (n : Nat) : Nat.ldiff 32767 n = 32767 - n % 32768 := by
  apply Nat.eq_of_testBit_eq
  intro i
  have h : n % 2 ^ 15 < 2 ^ 15 := Nat.mod_lt _ (by norm_num)
  have e1 : (32767 : Nat) - n % 32768 = 2 ^ 15 - (n % 2 ^ 15 + 1) := by omega
  have e2 : (32767 : Nat) = 2 ^ 15 - 1 := by norm_num
  rw [Nat.testBit_ldiff, e1, Nat.testBit_two_pow_sub_succ h, Nat.testBit_mod_two_pow, e2,
    Nat.testBit_two_pow_sub_one]
  by_cases hi : i < 15 <;> simp [hi]

theorem land_mask15 (v : Int) : Int.land v 0x7fff = v % 2 ^ 15 := by
  cases v with
  | ofNat n =>
    show ((n &&& 32767 : Nat) : Int) = _
    have := Nat.and_pow_two_sub_one_eq_mod n 15
    norm_num at this
    rw [this]
    norm_num
  | negSucc n =>
    show ((Nat.ldiff 32767 n : Nat) : Int) = _
    rw [ldiff_mask15, Int.negSucc_eq]
    omega

theorem wrapLong32 (x : Int) : wrapLong 32 x = (x + 2 ^ 31) % 2 ^ 32 - 2 ^ 31 := rfl

theorem wrapLong64 (x : Int) : wrapLong 64 x = (x + 2 ^ 63) % 2 ^ 64 - 2 ^ 63 := rfl

theorem rand_eq32 (x : Int) :
    rand 32 x = (wrapLong 32 (x * 214013 + 2531011) / 2 ^ 16 % 2 ^ 15,
      wrapLong 32 (x * 214013 + 2531011)) := by
  have h : wrapLong 32 (wrapLong 32 (x * 214013) + 2531011)
      = wrapLong 32 (x * 214013 + 2531011) := by
    simp only [wrapLong32]
    omega
  simp only [rand, h, land_mask15, Int.shiftRight_eq_div_pow]
  norm_num

theorem rand_eq64 (x : Int) :
    rand 64 x = (wrapLong 64 (x * 214013 + 2531011) / 2 ^ 16 % 2 ^ 15,
      wrapLong 64 (x * 214013 + 2531011)) := by
  have h : wrapLong 64 (wrapLong 64 (x * 214013) + 2531011)
      = wrapLong 64 (x * 214013 + 2531011) := by
    simp only [wrapLong64]
    omega
  simp only [rand, h, land_mask15, Int.shiftRight_eq_div_pow]
  norm_num

/-- C16: `rand()` replaces `rstate` by `rstate * 214013 + 2531011` wrapped to the
range of `long` (32 or 64 bits) and returns bits 16..30 of the new state, a value in
`[0, 32767]`; from the initial state 0, which is also what `srand(0)` sets, the first
ten calls return 38, 7719, 21238, 2437, 8855, 11797, 8365, 32285, 10450, 30612. -/
theorem rand_quick_lcg (rstate : Int) :
    (((rand 32 rstate).2 % 2 ^ 32 = (rstate * 214013 + 2531011) % 2 ^ 32 ∧
        -2 ^ 31 ≤ (rand 32 rstate).2 ∧ (rand 32 rstate).2 < 2 ^ 31) ∧
      (rand 32 rstate).1 = (rand 32 rstate).2 / 2 ^ 16 % 2 ^ 15 ∧
      0 ≤ (rand 32 rstate).1 ∧ (rand 32 rstate).1 ≤ 32767) ∧
    (((rand 64 rstate).2 % 2 ^ 64 = (rstate * 214013 + 2531011) % 2 ^ 64 ∧
        -2 ^ 63 ≤ (rand 64 rstate).2 ∧ (rand 64 rstate).2 < 2 ^ 63) ∧
      (rand 64 rstate).1 = (rand 64 rstate).2 / 2 ^ 16 % 2 ^ 15 ∧
      0 ≤ (rand 64 rstate).1 ∧ (rand 64 rstate).1 ≤ 32767) ∧
    (rstate_initial = 0 ∧ srand 32 0 = 0 ∧ srand 64 0 = 0) ∧
    randCalls 32 10 rstate_initial
      = [38, 7719, 21238, 2437, 8855, 11797, 8365, 32285, 10450, 30612] ∧
    randCalls 64 10 rstate_initial
      = [38, 7719, 21238, 2437, 8855, 11797, 8365, 32285, 10450, 30612] := by
  refine ⟨?_, ?_, ⟨rfl, by decide, by decide⟩, ?_, ?_⟩
  · rw [rand_eq32]
    simp only [wrapLong32]
    generalize rstate * 214013 = y
    refine ⟨⟨?_, ?_, ?_⟩, trivial, ?_, ?_⟩ <;> omega
  · rw [rand_eq64]
    simp only [wrapLong64]
    generalize rstate * 214013 = y
    refine ⟨⟨?_, ?_, ?_⟩, trivial, ?_, ?_⟩ <;> omega
  · simp only [randCalls, rand_eq32, rstate_initial]
    decide
  · simp only [randCalls, rand_eq64, rstate_initial]
    decide

/-! ## The buffer returned by `seed48` -/

theorem int32_mbits (s : Words) (hs : s.wf) :
    int32 ((s.w2 <<< 16) ||| s.w1) =
      (if s.w2 < 0x8000 then ((s.w1 + s.w2 * 2 ^ 16 : Nat) : Int)
        else ((s.w1 + s.w2 * 2 ^ 16 : Nat) : Int) - 2 ^ 32) := by
  obtain ⟨h0, h1, h2⟩ := hs
  have hv : s.value / 2 ^ 16 = s.w1 + s.w2 * 2 ^ 16 := by
    unfold Words.value; omega
  rw [mbits_eq s ⟨h0, h1, h2⟩, hv, int32_of_lt _ (by omega)]
  by_cases hlt : s.w2 < 0x8000
  · rw [if_pos hlt, if_pos (by omega)]
  · rw [if_neg hlt, if_neg (by omega)]

theorem int32_mbits_neg (s : Words) (hs : s.wf) :
    int32 ((s.w2 <<< 16) ||| s.w1) < 0 ↔ 0x8000 ≤ s.w2 := by
  rw [int32_mbits s hs]
  obtain ⟨h0, h1, h2⟩ := hs
  by_cases hlt : s.w2 < 0x8000
  · rw [if_pos hlt]; omega
  · rw [if_neg hlt]; omega

/-- C18, as the code has it: `jrand48` generates a signed int by iterating an
external buffer; its value lies in `[-2^31, 2^31 - 1]` and is negative exactly when
the top word of the iterated buffer is at least `0x8000`.  The generator of a
non-negative value in `[0, 2^31 - 1]` on an external buffer is `nrand48`. -/
theorem jrand48_is_signed (e : Engine) (xsubi : Words) :
    (-2 ^ 31 ≤ (jrand48 e xsubi).1 ∧ (jrand48 e xsubi).1 ≤ 2 ^ 31 - 1) ∧
    ((jrand48 e xsubi).1 < 0 ↔ 0x8000 ≤ (jrand48 e xsubi).2.1.w2) ∧
    (0 ≤ (nrand48 e xsubi).1 ∧ (nrand48 e xsubi).1 ≤ 2 ^ 31 - 1) := by
  have hw := r48_iterate_wf e.r48multiplicand e.r48addend xsubi
  refine ⟨int32_bounds _, int32_mbits_neg _ hw, ?_⟩
  have hv := value_lt _ hw
  show (0 : Int) ≤ ((((r48_iterate e.r48multiplicand e.r48addend xsubi).w2 <<< 15) |||
      ((r48_iterate e.r48multiplicand e.r48addend xsubi).w1 >>> 1) : Nat) : Int) ∧
    ((((r48_iterate e.r48multiplicand e.r48addend xsubi).w2 <<< 15) |||
      ((r48_iterate e.r48multiplicand e.r48addend xsubi).w1 >>> 1) : Nat) : Int) ≤ 2 ^ 31 - 1
  rw [lbits_eq _ hw]
  omega

/-- C18 fails: at process start, `jrand48` on the buffer `(0, 0, 0x2000)` leaves the
buffer `(11, 0, 0xA000)` and returns `-1610612736`. -/
theorem jrand48_negative_value :
    (jrand48 initial ⟨0, 0, 0x2000⟩).2.1 = ⟨11, 0, 0xa000⟩ ∧
    (jrand48 initial ⟨0, 0, 0x2000⟩).1 = -1610612736 ∧
    ¬ (0 ≤ (jrand48 initial ⟨0, 0, 0x2000⟩).1) := by
  decide

/-! ## Size of the intermediate values -/

theorem iterResult_eq_iterSum (m : Words) (c : Nat) (s : Words) :
    iterResult m c s = iterSum m c s &&& R48_MASK := by
  unfold iterResult iterSum iterProduct iterCross
  simp only [and_mask48, and_mask16, u64, Nat.shiftLeft_eq]
  generalize (s.w0 ||| s.w1 * 2 ^ 16) * r48_getll m = P
  generalize s.w2 * (r48_getll m % 2 ^ 16) = Q
  omega

theorem iterProduct_lt (m s : Words) (hs : s.wf) (hm : m.wf) : iterProduct m s < 2 ^ 80 := by
  obtain ⟨h0, h1, h2⟩ := hs
  have hM := value_lt m hm
  unfold iterProduct
  simp only
  rw [or_shift16 _ _ h0, r48_getll_eq_value m hm]
  have hlo : s.w0 + s.w1 * 2 ^ 16 < 2 ^ 32 := by omega
  calc (s.w0 + s.w1 * 2 ^ 16) * m.value < 2 ^ 32 * 2 ^ 48 := Nat.mul_lt_mul'' hlo hM
    _ = 2 ^ 80 := by norm_num

theorem iterCross_lt (m s : Words) (hs : s.wf) : iterCross m s < 2 ^ 64 := by
  obtain ⟨h0, h1, h2⟩ := hs
  unfold iterCross
  simp only [and_mask16, Nat.shiftLeft_eq]
  have hA : r48_getll m % 2 ^ 16 < 2 ^ 16 := Nat.mod_lt _ (by norm_num)
  have hq : s.w2 * (r48_getll m % 2 ^ 16) < 2 ^ 16 * 2 ^ 16 := Nat.mul_lt_mul'' h2 hA
  generalize s.w2 * (r48_getll m % 2 ^ 16) = Q at hq ⊢
  omega

theorem iterSum_lt (m : Words) (c : Nat) (s : Words) (hc : c < 2 ^ 16) :
    iterSum m c s < 2 ^ 64 := by
  unfold iterSum
  simp only [and_mask48]
  omega

/-- C19, as the code has it: for a 16-bit-word state, a 48-bit multiplier and a
16-bit addend, `(hi * (multiplicand & 0xffff)) << 32` and the three-term sum are below
`2^64` over unbounded integers; `lo * multiplicand` is only below `2^80`, and its
reduction modulo `2^64` by `unsigned long long` arithmetic leaves the low 48 bits,
which are all that the iteration keeps of it, unchanged. -/
theorem r48_iterate_intermediate_sizes (r48multiplicand : Words) (r48addend : Nat)
    (state : Words) (hs : state.wf) (hm : r48multiplicand.wf) (hc : r48addend < 2 ^ 16) :
    iterCross r48multiplicand state < 2 ^ 64 ∧
    iterSum r48multiplicand r48addend state < 2 ^ 64 ∧
    iterProduct r48multiplicand state < 2 ^ 80 ∧
    u64 (iterProduct r48multiplicand state) &&& R48_MASK
      = iterProduct r48multiplicand state &&& R48_MASK ∧
    iterResult r48multiplicand r48addend state
      = iterSum r48multiplicand r48addend state &&& R48_MASK := by
  refine ⟨iterCross_lt _ _ hs, iterSum_lt _ _ _ hc, iterProduct_lt _ _ hs hm, ?_,
    iterResult_eq_iterSum _ _ _⟩
  simp only [and_mask48, u64]
  omega

/-- Instance of the amended C19 at the state `(0xFFFF, 0xFFFF, 0xFFFF)` with the
default multiplier and addend. -/
theorem r48_iterate_intermediate_sizes_witness :
    (Words.mk 0xffff 0xffff 0xffff).wf ∧ (Words.mk 0xe66d 0xdeec 0x0005).wf ∧
    (11 : Nat) < 2 ^ 16 ∧
    (iterCross ⟨0xe66d, 0xdeec, 0x0005⟩ ⟨0xffff, 0xffff, 0xffff⟩ < 2 ^ 64 ∧
      iterSum ⟨0xe66d, 0xdeec, 0x0005⟩ 11 ⟨0xffff, 0xffff, 0xffff⟩ < 2 ^ 64 ∧
      iterProduct ⟨0xe66d, 0xdeec, 0x0005⟩ ⟨0xffff, 0xffff, 0xffff⟩ < 2 ^ 80 ∧
      u64 (iterProduct ⟨0xe66d, 0xdeec, 0x0005⟩ ⟨0xffff, 0xffff, 0xffff⟩) &&& R48_MASK
        = iterProduct ⟨0xe66d, 0xdeec, 0x0005⟩ ⟨0xffff, 0xffff, 0xffff⟩ &&& R48_MASK ∧
      iterResult ⟨0xe66d, 0xdeec, 0x0005⟩ 11 ⟨0xffff, 0xffff, 0xffff⟩
        = iterSum ⟨0xe66d, 0xdeec, 0x0005⟩ 11 ⟨0xffff, 0xffff, 0xffff⟩ &&& R48_MASK) :=
  ⟨by decide, by decide, by decide,
    r48_iterate_intermediate_sizes ⟨0xe66d, 0xdeec, 0x0005⟩ 11 ⟨0xffff, 0xffff, 0xffff⟩
      (by decide) (by decide) (by decide)⟩

/-- C19 fails for `lo * multiplicand`: with the default multiplier and the state
`(0xFFFF, 0xFFFF, 0)` the product is `108297187670082394515`, above `2^64`. -/
theorem r48_iterate_product_exceeds_64_bits :
    (Words.mk 0xffff 0xffff 0).wf ∧ (Words.mk 0xe66d 0xdeec 0x0005).wf ∧
    iterProduct ⟨0xe66d, 0xdeec, 0x0005⟩ ⟨0xffff, 0xffff, 0⟩ = 108297187670082394515 ∧
    ¬ (iterProduct ⟨0xe66d, 0xdeec, 0x0005⟩ ⟨0xffff, 0xffff, 0⟩ < 2 ^ 64) := by
  decide

/-! ## The iteration is a bijection for an odd multiplier -/

theorem value_inj (s t : Words) (hs : s.wf) (ht : t.wf) (h : s.value = t.value) : s = t := by
  obtain ⟨s0, s1, s2⟩ := s
  obtain ⟨t0, t1, t2⟩ := t
  obtain ⟨h0, h1, h2⟩ := hs
  obtain ⟨k0, k1, k2⟩ := ht
  simp only [Words.value] at h h0 h1 h2 k0 k1 k2
  have e0 : s0 = t0 := by omega
  have e1 : s1 = t1 := by omega
  have e2 : s2 = t2 := by omega
  rw [e0, e1, e2]

theorem lcg_cancel (A c v1 v2 : Nat) (hodd : A % 2 = 1) (h1 : v1 < 2 ^ 48) (h2 : v2 < 2 ^ 48)
    (h : (v1 * A + c) % 2 ^ 48 = (v2 * A + c) % 2 ^ 48) : v1 = v2 := by
  have hcop : Nat.gcd (2 ^ 48) A = 1 :=
    Nat.Coprime.pow_left 48 (Nat.coprime_two_left.mpr (Nat.odd_iff.mpr hodd))
  have hmod : v1 * A + c ≡ v2 * A + c [MOD 2 ^ 48] := h
  have hv : v1 ≡ v2 [MOD 2 ^ 48] :=
    Nat.ModEq.cancel_right_of_coprime hcop (Nat.ModEq.add_right_cancel' c hmod)
  have hv' : v1 % 2 ^ 48 = v2 % 2 ^ 48 := hv
  rwa [Nat.mod_eq_of_lt h1, Nat.mod_eq_of_lt h2] at hv'

theorem lcg_surj (A c t : Nat) (hodd : A % 2 = 1) (ht : t < 2 ^ 48) :
    ∃ v, v < 2 ^ 48 ∧ (v * A + c) % 2 ^ 48 = t := by
  let f : Fin (2 ^ 48) → Fin (2 ^ 48) :=
    fun v => ⟨(v.val * A + c) % 2 ^ 48, Nat.mod_lt _ (by norm_num)⟩
  have hinj : Function.Injective f := by
    intro a b hab
    have hval : (a.val * A + c) % 2 ^ 48 = (b.val * A + c) % 2 ^ 48 :=
      congrArg Fin.val hab
    exact Fin.ext (lcg_cancel A c a.val b.val hodd a.isLt b.isLt hval)
  obtain ⟨v, hv⟩ := Finite.surjective_of_injective hinj ⟨t, ht⟩
  exact ⟨v.val, v.isLt, congrArg Fin.val hv⟩

theorem iterate_inj (m : Words) (c : Nat) (hm : m.wf) (hodd : r48_getll m % 2 = 1)
    (s1 s2 : Words) (h1 : s1.wf) (h2 : s2.wf)
    (h : r48_iterate m c s1 = r48_iterate m c s2) : s1 = s2 := by
  have hv : (r48_iterate m c s1).value = (r48_iterate m c s2).value := by rw [h]
  rw [r48_iterate_value, r48_iterate_value, iterResult_eq _ _ _ h1 hm,
    iterResult_eq _ _ _ h2 hm] at hv
  rw [r48_getll_eq_value m hm] at hodd
  exact value_inj s1 s2 h1 h2
    (lcg_cancel m.value c s1.value s2.value hodd (value_lt s1 h1) (value_lt s2 h2) hv)

/-- C20: for an odd multiplier (the default `0x5DEECE66D` is one) and any addend,
`r48_iterate` is a bijection on the 3-word states: different states never iterate to
the same state, and every state is the image of exactly one state. -/
theorem r48_iterate_bijective (r48multiplicand : Words) (r48addend : Nat)
    (hm : r48multiplicand.wf) (hodd : r48_getll r48multiplicand % 2 = 1) :
    (∀ s1 s2 : Words, s1.wf → s2.wf →
      r48_iterate r48multiplicand r48addend s1 = r48_iterate r48multiplicand r48addend s2 →
      s1 = s2) ∧
    (∀ t : Words, t.wf →
      ∃! s : Words, s.wf ∧ r48_iterate r48multiplicand r48addend s = t) := by
  refine ⟨fun s1 s2 h1 h2 h => iterate_inj _ _ hm hodd s1 s2 h1 h2 h, ?_⟩
  intro t ht
  have hodd' : r48multiplicand.value % 2 = 1 := by
    rw [← r48_getll_eq_value _ hm]; exact hodd
  obtain ⟨v, hv, hvt⟩ := lcg_surj r48multiplicand.value r48addend t.value hodd' (value_lt t ht)
  have hswf : (Words.mk (v % 2 ^ 16) (v / 2 ^ 16 % 2 ^ 16) (v / 2 ^ 32)).wf := by
    refine ⟨?_, ?_, ?_⟩ <;> simp only <;> omega
  have hsv : (Words.mk (v % 2 ^ 16) (v / 2 ^ 16 % 2 ^ 16) (v / 2 ^ 32)).value = v := by
    simp only [Words.value]
    omega
  have himg : r48_iterate r48multiplicand r48addend
      (Words.mk (v % 2 ^ 16) (v / 2 ^ 16 % 2 ^ 16) (v / 2 ^ 32)) = t := by
    apply value_inj _ _ (r48_iterate_wf _ _ _) ht
    rw [r48_iterate_value, iterResult_eq _ _ _ hswf hm, hsv]
    exact hvt
  refine ⟨_, ⟨hswf, himg⟩, ?_⟩
  rintro s' ⟨hs', himg'⟩
  exact iterate_inj _ _ hm hodd _ _ hs' hswf (himg'.trans himg.symm)

/-- Instance of C20 at the default multiplier `0x5DEECE66D` and addend 11. -/
theorem r48_iterate_bijective_witness :
    (Words.mk 0xe66d 0xdeec 0x0005).wf ∧ r48_getll ⟨0xe66d, 0xdeec, 0x0005⟩ % 2 = 1 ∧
    ((∀ s1 s2 : Words, s1.wf → s2.wf →
      r48_iterate ⟨0xe66d, 0xdeec, 0x0005⟩ 11 s1 = r48_iterate ⟨0xe66d, 0xdeec, 0x0005⟩ 11 s2 →
      s1 = s2) ∧
    (∀ t : Words, t.wf →
      ∃! s : Words, s.wf ∧ r48_iterate ⟨0xe66d, 0xdeec, 0x0005⟩ 11 s = t)) :=
  ⟨by decide, by decide,
    r48_iterate_bijective ⟨0xe66d, 0xdeec, 0x0005⟩ 11 (by decide) (by decide)⟩

end Rand48
